import Mathlib

/-!
# Verification of the sarin latency sketch and request pipeline

Shallow embedding of the statistics and request-generation code of the
sarin HTTP load generator (Go).  Durations are modelled as `Nat`
(nanosecond counts are non-negative and the arbitrary-precision `big.Int`
arithmetic of the source has no overflow), bucket maps as association
lists in strictly ascending key order (the canonical form of a Go
`map[time.Duration]uint64`: `calculateStats` in the source extracts the
keys and sorts them before any computation, and map iteration feeds only
order-insensitive aggregations), and fallible operations as `Except`.
-/

namespace Sarin

/-- A per-label bucket map of the latency sketch: pairs of
(quantized duration bucket, count).  Canonical representation of the Go
`map[time.Duration]uint64` field `Response.durations`, kept in strictly
ascending bucket order. -/

abbrev Buckets := List (Nat × Nat)

/-- Sum of all counts of a bucket map; the `totalCount` accumulation loop
of `calculateStats` (proxy.go). -/

def totalCount (l : Buckets) : Nat := (l.map Prod.snd).sum

/-- The `sum` accumulation loop of `calculateStats` (proxy.go):
`sum += int64(duration*accuracy) * count` over all buckets. -/

def weightedSum (l : Buckets) (a : Nat) : Nat :=
  (l.map (fun kc => kc.1 * a * kc.2)).sum

/-- `div` from proxy.go: `big.Int` division rounding to the nearest
integer (`quotient+1` when `2*remainder ≥ divisor`).  Both arguments are
non-negative in every call site, so `Nat` division coincides with
`big.Int.DivMod`. -/

def divNearest (x y : Nat) : Nat :=
  let quotient := x / y
  let remainder := x % y
  if y ≤ 2 * remainder then quotient + 1 else quotient

/-- The accumulation loop of `calculatePercentile` (proxy.go): walk the
buckets in the order of the (sorted) list, accumulating counts; return
`duration * accuracy` for the first bucket whose running sum reaches the
target, or `none` when the target is never reached. -/

def percentileLoop (a target cum : Nat) : Buckets → Option Nat
  | [] => none
  | (k, c) :: rest =>
    if target ≤ cum + c then some (k * a)
    else percentileLoop a target (cum + c) rest

/-- `calculatePercentile` from proxy.go.  `target` is the ceiling of
`totalCount * percentile / 100`, computed in the source by adding 99
before dividing by 100.  The final line is the source's fallback to the
last sorted duration. -/

def calculatePercentile (l : Buckets) (totalCnt percentile a : Nat) : Nat :=
  let target := (totalCnt * percentile + 99) / 100
  match percentileLoop a target 0 l with
  | some v => v
  | none => ((l.getLastD (0, 0)).1) * a

/-- Model of the wrapped `big.Int` count field: `none` is the zero-value
`BigInt` whose inner `*big.Int` pointer is nil (as produced by
`responseStat{}`), `some n` a properly initialised count. -/

abbrev BigIntModel := Option Nat

/-- `BigInt.String` from proxy.go: `math/big` renders a nil `*big.Int`
as the literal `<nil>`. -/

def bigIntString : BigIntModel → String
  | none => "<nil>"
  | some n => toString n

/-- `responseStat` from proxy.go (duration fields kept as raw nanosecond
counts; their string rendering is modelled separately). -/

structure ResponseStat where
  count : BigIntModel
  min : Nat
  max : Nat
  average : Nat
  p90 : Nat
  p95 : Nat
  p99 : Nat
  deriving Repr, DecidableEq

/-- `calculateStats` from proxy.go.  The source sorts the map's keys
ascending; here the list is already the sorted sequence. -/

def calculateStats (l : Buckets) (a : Nat) : ResponseStat :=
  match l with
  | [] => { count := none, min := 0, max := 0, average := 0, p90 := 0, p95 := 0, p99 := 0 }
  | (k₀, c₀) :: rest =>
    let n := totalCount ((k₀, c₀) :: rest)
    let sum := weightedSum ((k₀, c₀) :: rest) a
    { count := some n
      min := k₀ * a
      max := (rest.getLastD (k₀, c₀)).1 * a
      average := divNearest sum n
      p90 := calculatePercentile ((k₀, c₀) :: rest) n 90 a
      p95 := calculatePercentile ((k₀, c₀) :: rest) n 95 a
      p99 := calculatePercentile ((k₀, c₀) :: rest) n 99 a }

/-- Merge two bucket maps, adding counts on equal keys: the
`totalDurations[duration] += count` aggregation of `prepareOutputData`
(proxy.go), expressed on the canonical sorted representation. -/

def mergeBuckets : Buckets → Buckets → Buckets
  | [], ys => ys
  | x :: xs, [] => x :: xs
  | (k₁, c₁) :: xs, (k₂, c₂) :: ys =>
    if k₁ < k₂ then (k₁, c₁) :: mergeBuckets xs ((k₂, c₂) :: ys)
    else if k₂ < k₁ then (k₂, c₂) :: mergeBuckets ((k₁, c₁) :: xs) ys
    else (k₁, c₁ + c₂) :: mergeBuckets xs ys
termination_by xs ys => xs.length + ys.length

/-- The sketch at summary time: association list from outcome label to
its bucket map (`SarinResponseData.Responses`). -/

abbrev Sketch := List (String × Buckets)

/-- Aggregate all labels' buckets into one map, as the `default` branch
of `prepareOutputData` does with `totalDurations`. -/

def mergeAllBuckets (rs : Sketch) : Buckets :=
  rs.foldl (fun acc r => mergeBuckets acc r.2) []

/-- `outputData` from proxy.go. -/

structure OutputData where
  responses : List (String × ResponseStat)
  total : ResponseStat
  deriving Repr, DecidableEq

/-- `prepareOutputData` from proxy.go: empty sketch yields an empty map
and a zero-value `responseStat`; a single label takes a fast path whose
stats double as the total; otherwise stats are computed per label and
the total from the aggregated buckets. -/

def prepareOutputData (rs : Sketch) (a : Nat) : OutputData :=
  match rs with
  | [] =>
    { responses := []
      total := { count := none, min := 0, max := 0, average := 0, p90 := 0, p95 := 0, p99 := 0 } }
  | [(key, b)] =>
    let stats := calculateStats b a
    { responses := [(key, stats)], total := stats }
  | _ =>
    { responses := rs.map (fun r => (r.1, calculateStats r.2 a))
      total := calculateStats (mergeAllBuckets rs) a }

/-- Running count of the first `m` buckets (cumulative rank of the
`m`-th bucket in ascending order). -/

def prefixCount (l : Buckets) (m : Nat) : Nat := totalCount (l.take m)

/-- First key of a bucket map (the sketch's smallest bucket once the
list is in ascending order). -/

def headKey (l : Buckets) : Nat := (l.headD (0, 0)).1

/-- Last key of a bucket map (the largest bucket in ascending order);
also the source's percentile fallback bucket. -/

def lastKey (l : Buckets) : Nat := (l.getLastD (0, 0)).1

/-! ## Duration rendering (proxy.go `Duration` and Go `time.Duration.String`) -/

def digitChar (d : Nat) : Char := Char.ofNat (48 + d)

/-- The digit loop of Go's `fmtFrac`: consume `prec` decimal digits of
`u` from the least significant end, skipping trailing zeros, and return
the collected fraction digits (most significant first) together with the
remaining integer part. -/

def fmtFracGo : Nat → Nat → Bool → List Char → List Char × Bool × Nat
  | u, 0, print, acc => (acc, print, u)
  | u, i + 1, print, acc =>
    let digit := u % 10
    let print' := print || decide (digit ≠ 0)
    let acc' := if print' then digitChar digit :: acc else acc
    fmtFracGo (u / 10) i print' acc'

/-- Go `fmtFrac`: the fraction of `u / 10^prec` as a string (with the
leading dot, trailing zeros omitted, empty when the fraction is zero),
and the integer part. -/

def fmtFrac (u prec : Nat) : String × Nat :=
  let r := fmtFracGo u prec false []
  (if r.2.1 then String.mk ('.' :: r.1) else "", r.2.2)

/-- Go `fmtInt` (decimal rendering). -/

def fmtInt (u : Nat) : String := Nat.repr u

/-- Go `time.Duration.String` for non-negative durations (all durations
in this program are elapsed times, hence non-negative): sub-second
durations use `ns`/`µs`/`ms` units, larger ones decimal seconds with
minute and hour components. -/

def goDurationString (u : Nat) : String :=
  if u < 1000000000 then
    if u = 0 then "0s"
    else if u < 1000 then fmtInt u ++ "ns"
    else if u < 1000000 then
      let fr := fmtFrac u 3
      fmtInt fr.2 ++ fr.1 ++ "µs"
    else
      let fr := fmtFrac u 6
      fmtInt fr.2 ++ fr.1 ++ "ms"
  else
    let fr := fmtFrac u 9
    let secs := fr.2
    let secPart := fmtInt (secs % 60) ++ fr.1 ++ "s"
    let mins := secs / 60
    if mins = 0 then secPart
    else
      let minPart := fmtInt (mins % 60) ++ "m" ++ secPart
      let hrs := mins / 60
      if hrs = 0 then minPart else fmtInt hrs ++ "h" ++ minPart

/-- Go `time.Duration.Round` for non-negative durations: round to the
nearest multiple of `m`, half away from zero.  (The `int64` overflow
guard of the source is unreachable for realistic elapsed times and is
not modelled.) -/

def roundDuration (d m : Nat) : Nat :=
  if m = 0 then d
  else
    let r := d % m
    if r + r < m then d - r else d + (m - r)

/-- `Duration.String` from proxy.go: millisecond rounding at or above
one second, microsecond rounding at or above one millisecond, exact
below. -/

def durationRenderString (d : Nat) : String :=
  if 1000000000 ≤ d then goDurationString (roundDuration d 1000000)
  else if 1000000 ≤ d then goDurationString (roundDuration d 1000)
  else goDurationString d

/-- `Duration.MarshalJSON` from proxy.go: `json.Marshal` of the
*unrounded* `time.Duration(d).String()` (quoted; the duration strings
contain no characters that JSON escapes). -/

def durationMarshalJSON (d : Nat) : String := "\"" ++ goDurationString d ++ "\""

/-- `Duration.MarshalYAML` from proxy.go: the *unrounded*
`time.Duration(d).String()`. -/

def durationMarshalYAML (d : Nat) : String := goDurationString d

/-! ## File cache filename derivation (filecache.go) -/

/-- Go `path.Base` / `filepath.Base` on a Unix path: `.` for the empty
string, trailing slashes stripped, `/` when only slashes remain,
otherwise the text after the last slash. -/

def pathBase (s : String) : String :=
  if s = "" then "."
  else
    let t := (s.toList.reverse.dropWhile (fun c => c = '/')).reverse
    if t = [] then "/"
    else String.mk (t.reverse.takeWhile (fun c => c ≠ '/')).reverse

/-- `strings.Index(filename, "?")` truncation of fetchURL: keep the text
before the first question mark. -/

def stripFromQuery (s : String) : String :=
  String.mk (s.toList.takeWhile (fun c => c ≠ '?'))

/-- The two `strings.HasPrefix` scheme tests of `GetOrLoad`. -/

def hasHTTPScheme (s : String) : Bool :=
  "http://".toList.isPrefixOf s.toList || "https://".toList.isPrefixOf s.toList

/-- The filename computed by `fetchURL` (filecache.go): `path.Base` of
the *whole URL string*, then the `downloaded_file` fallback when that
base is empty, `/` or `.`, and only then the query-string strip. -/

def fetchURLFilename (url : String) : String :=
  let filename := pathBase url
  let filename :=
    if filename = "" || filename = "/" || filename = "." then "downloaded_file" else filename
  stripFromQuery filename

/-- The filename computed by `readLocalFile` (filecache.go):
`filepath.Base` of the path. -/

def readLocalFilename (filePath : String) : String := pathBase filePath

/-- The filename `GetOrLoad` (filecache.go) associates with a source:
URL branch for `http://`/`https://` sources, local branch otherwise. -/

def getOrLoadFilename (source : String) : String :=
  if hasHTTPScheme source then fetchURLFilename source else readLocalFilename source

/-- Modelled from the spec's words, for comparison with the code's URL
branch: the basename of the URL's *path component* with any query string
stripped, falling back to `downloaded_file` whenever the result is
empty, `/`, or `.`. -/

def specURLFilename (url : String) : String :=
  let cs := url.toList
  let afterScheme :=
    if "http://".toList.isPrefixOf cs then cs.drop 7
    else if "https://".toList.isPrefixOf cs then cs.drop 8
    else cs
  let path := (afterScheme.dropWhile fun c => !(c = '/' || c = '?')).takeWhile fun c => c ≠ '?'
  let base := pathBase (String.mk path)
  if base = "" || base = "/" || base = "." then "downloaded_file" else base

/-! ## Static worker loops (sarin.go) -/

/-- Canonical sorted-insert increment of one bucket: the
`response.durations[bucket]++` step of `SarinResponseData.Add`. -/

def bucketsIncr : Buckets → Nat → Buckets
  | [], k => [(k, 1)]
  | (k', c) :: rest, k =>
    if k < k' then (k, 1) :: (k', c) :: rest
    else if k = k' then (k', c + 1) :: rest
    else (k', c) :: bucketsIncr rest k

/-- `SarinResponseData.Add` (proxy.go): look up or create the per-label
bucket map and increment the bucket at `elapsed / accuracy`. -/

def sketchAdd (s : Sketch) (label : String) (elapsed accuracy : Nat) : Sketch :=
  sketchAddBucket s label (elapsed / accuracy)
where
  sketchAddBucket : Sketch → String → Nat → Sketch
    | [], label, bucket => [(label, [(bucket, 1)])]
    | (l, b) :: rest, label, bucket =>
      if l = label then (l, bucketsIncr b bucket) :: rest
      else (l, b) :: sketchAddBucket rest label bucket

/-- State accumulated by a worker loop: the shared sketch, the global
counter, and the number of requests actually dispatched on the wire. -/

structure WorkerResult where
  sketch : Sketch
  counter : Nat
  dispatched : Nat
  deriving Repr, DecidableEq

/-- The error branch loop of `workerStatsWithStatic` and
`workerDryRunStatsWithStatic` (sarin.go): for every job token record the
generation error with elapsed 0 and increment the counter; nothing is
dispatched. -/

def statsStaticErrLoop (e : String) (accuracy : Nat) : Nat → WorkerResult → WorkerResult
  | 0, st => st
  | n + 1, st =>
    statsStaticErrLoop e accuracy n
      { sketch := sketchAdd st.sketch e 0 accuracy
        counter := st.counter + 1
        dispatched := st.dispatched }

/-- The success branch loop of `workerStatsWithStatic` (sarin.go):
dispatch the pre-generated request each iteration and record the
outcome label and elapsed time. -/

def statsStaticOkLoop (dispatch : Nat → String × Nat) (accuracy : Nat) :
    Nat → Nat → WorkerResult → WorkerResult
  | _, 0, st => st
  | i, n + 1, st =>
    statsStaticOkLoop dispatch accuracy (i + 1) n
      { sketch := sketchAdd st.sketch (dispatch i).1 (dispatch i).2 accuracy
        counter := st.counter + 1
        dispatched := st.dispatched + 1 }

/-- The success branch loop of `workerDryRunStatsWithStatic` (sarin.go):
record `"dry-run"` with elapsed 0 for every token, never dispatching. -/

def dryRunStaticOkLoop (accuracy : Nat) : Nat → WorkerResult → WorkerResult
  | 0, st => st
  | n + 1, st =>
    dryRunStaticOkLoop accuracy n
      { sketch := sketchAdd st.sketch "dry-run" 0 accuracy
        counter := st.counter + 1
        dispatched := st.dispatched }

/-- `workerStatsWithStatic` (sarin.go): generate once before the loop;
on failure record the error per token, otherwise dispatch per token.
`jobs` is the number of tokens received before the channel closes and
`dispatch i` the outcome label and elapsed time of the `i`-th send. -/

def workerStatsWithStatic (genResult : Except String Unit) (jobs : Nat)
    (dispatch : Nat → String × Nat) (accuracy : Nat) : WorkerResult :=
  match genResult with
  | .error e => statsStaticErrLoop e accuracy jobs ⟨[], 0, 0⟩
  | .ok _ => statsStaticOkLoop dispatch accuracy 0 jobs ⟨[], 0, 0⟩

/-- `workerDryRunStatsWithStatic` (sarin.go). -/

def workerDryRunStatsWithStatic (genResult : Except String Unit) (jobs accuracy : Nat) :
    WorkerResult :=
  match genResult with
  | .error e => statsStaticErrLoop e accuracy jobs ⟨[], 0, 0⟩
  | .ok _ => dryRunStaticOkLoop accuracy jobs ⟨[], 0, 0⟩

/-! ## Dynamism classification (template.go / request generator) -/

/-- Root node kinds of a parsed `text/template` tree
(`text/template/parse`). -/

inductive NodeType where
  | text
  | comment
  | action
  | ifNode
  | rangeNode
  | withNode
  | templateNode
  deriving DecidableEq, Repr

/-- The node kinds `hasTemplateActions` (template.go) looks for:
`NodeAction`, `NodeIf`, `NodeRange`, `NodeWith`, `NodeTemplate`. -/

def isActionNode : NodeType → Bool
  | .action => true
  | .ifNode => true
  | .rangeNode => true
  | .withNode => true
  | .templateNode => true
  | _ => false

/-- `hasTemplateActions` (template.go): some root node of the parsed
tree is an action node. -/

def hasTemplateActions (nodes : List NodeType) : Bool := nodes.any isActionNode

/-- A templated field modelled by its parse outcome: `none` when
`template.Parse` fails (the source then falls back to the literal
string, statically), `some nodes` the root node list of the tree. -/

abbrev Tmpl := Option (List NodeType)

/-- The dynamism flag of `createTemplateFunc` (request generator): true
iff parsing succeeded and the tree has template actions. -/

def createTemplateFuncDynamic : Tmpl → Bool
  | some nodes => hasTemplateActions nodes
  | none => false

/-- The dynamism flag of `buildStringSliceGenerator`: empty list is
static; otherwise start from `length > 1` and OR in each alternative's
template flag, as the source loop does. -/

def buildStringSliceGeneratorDynamic (values : List Tmpl) : Bool :=
  if values.isEmpty then false
  else values.foldl (fun acc v => acc || createTemplateFuncDynamic v) (decide (1 < values.length))

/-- One header/param/cookie item: a key template and its value
templates (`types.KeyValue`). -/

structure KeyValueSpec where
  key : Tmpl
  values : List Tmpl

/-- The dynamism flag of `buildKeyValueGenerators`: the source loop ORs,
for every item, the key flag, each value flag, and `len(values) > 1`. -/

def buildKeyValueGeneratorsDynamic (items : List KeyValueSpec) : Bool :=
  items.foldl
    (fun acc item =>
      acc || createTemplateFuncDynamic item.key ||
        item.values.any createTemplateFuncDynamic || decide (1 < item.values.length))
    false

/-- The boolean returned by `NewRequestGenerator` alongside the request
generator: the OR of the path, method, params, headers, cookies and body
flags and the presence of any script. -/

def newRequestGeneratorIsDynamic (path : Tmpl) (methods : List Tmpl)
    (params headers cookies : List KeyValueSpec) (bodies : List Tmpl)
    (hasScripts : Bool) : Bool :=
  createTemplateFuncDynamic path ||
  buildStringSliceGeneratorDynamic methods ||
  buildKeyValueGeneratorsDynamic params ||
  buildKeyValueGeneratorsDynamic headers ||
  buildKeyValueGeneratorsDynamic cookies ||
  buildStringSliceGeneratorDynamic bodies ||
  hasScripts

/-- Spec-side reading of per-field dynamism: the template contains an
action node. -/

def SpecFieldDynamic (t : Tmpl) : Prop :=
  ∃ nodes, t = some nodes ∧ ∃ n ∈ nodes, isActionNode n = true

/-- Spec-side reading for a multi-alternative field: more than one
alternative, or some alternative's template contains an action node. -/

def SpecSliceDynamic (values : List Tmpl) : Prop :=
  1 < values.length ∨ ∃ v ∈ values, SpecFieldDynamic v

/-- Spec-side reading for a header/param/cookie list: some item has a
dynamic key, a dynamic value, or more than one alternative value. -/

def SpecKeyValueDynamic (items : List KeyValueSpec) : Prop :=
  ∃ item ∈ items, SpecFieldDynamic item.key ∨
    (∃ v ∈ item.values, SpecFieldDynamic v) ∨ 1 < item.values.length

/-! ## Request generation order (request generator, part of package sarin) -/

/-- `script.RequestData` (script.go): the mutable per-worker snapshot
handed to scripts and applied to the wire request.  The string-keyed
multimaps are modelled as association lists. -/

structure RequestData where
  method : String
  url : String
  path : String
  headers : List (String × List String)
  params : List (String × List String)
  cookies : List (String × List String)
  body : String
  deriving Repr, DecidableEq

/-- `resetRequestData` (request generator): clears method, path, body
and the three maps at the start of every invocation. -/

def resetRequestData (rd : RequestData) : RequestData :=
  { rd with method := "", path := "", body := "", headers := [], params := [], cookies := [] }

/-- The `reqData.Path = path` assignment after path rendering. -/

def setPath (rd : RequestData) (p : String) : RequestData := { rd with path := p }

/-- Go's `append(reqData.Headers[k], v)` under a map store. -/

def appendHeaderValue : List (String × List String) → String → String → List (String × List String)
  | [], k, v => [(k, [v])]
  | (k', vs) :: rest, k, v =>
    if k' = k then (k', vs ++ [v]) :: rest else (k', vs) :: appendHeaderValue rest k v

/-- The `reqData.Headers["Content-Type"] = append(..., ct)` step that
appends the form-data boundary Content-Type after header rendering. -/

def appendContentType (rd : RequestData) (ct : String) : RequestData :=
  { rd with headers := appendHeaderValue rd.headers "Content-Type" ct }

/-- The observable steps of one invocation of the generated request
function (`NewRequestGenerator`'s closure). -/

inductive GenStep where
  | evalValues
  | renderPath
  | renderMethod
  | clearFormDataSlot
  | renderBody
  | renderHeaders
  | appendFormDataContentType
  | renderParams
  | renderCookies
  | scriptTransform
  | applyToWire
  deriving DecidableEq, Repr

/-- The rendered `values` binding (dotenv-style key/value pairs). -/

abbrev Values := List (String × String)

/-- The behaviour of the sub-generators the closure composes: each may
fail with a render error.  `bodyStep` returns the contents of the
form-data Content-Type slot as written during body rendering (the slot
having been cleared immediately before). -/

structure GenEnv where
  valuesResult : Except String Values
  pathResult : Values → Except String String
  methodStep : Values → RequestData → Except String RequestData
  bodyStep : Values → RequestData → Except String (RequestData × String)
  headersStep : Values → RequestData → Except String RequestData
  paramsStep : Values → RequestData → Except String RequestData
  cookiesStep : Values → RequestData → Except String RequestData
  scriptStep : RequestData → Except String RequestData
  hasScripts : Bool

/-- The outcome of one invocation: the ordered trace of executed steps,
the final contents of the form-data slot, and the result. -/

structure GenOutcome where
  trace : List GenStep
  slot : String
  result : Except String RequestData

/-- Steps (6)–(9) of the closure: params, cookies, script hand-off when
scripts are present, and application to the wire request. -/

def generateTail (env : GenEnv) (data : Values) (slot : String) (rd : RequestData) : GenOutcome :=
  match env.paramsStep data rd with
  | .error e => ⟨[GenStep.renderParams], slot, .error e⟩
  | .ok rd₅ =>
    match env.cookiesStep data rd₅ with
    | .error e => ⟨[GenStep.renderParams, GenStep.renderCookies], slot, .error e⟩
    | .ok rd₆ =>
      if env.hasScripts then
        match env.scriptStep rd₆ with
        | .error e =>
          ⟨[GenStep.renderParams, GenStep.renderCookies, GenStep.scriptTransform], slot, .error e⟩
        | .ok rd₇ =>
          ⟨[GenStep.renderParams, GenStep.renderCookies, GenStep.scriptTransform,
            GenStep.applyToWire], slot, .ok rd₇⟩
      else
        ⟨[GenStep.renderParams, GenStep.renderCookies, GenStep.applyToWire], slot, .ok rd₆⟩

/-- The closure returned by `NewRequestGenererator` (request generator),
instrumented with the step trace: reset the buffer; evaluate `values`;
render path; render method; clear the form-data slot and render body;
render headers; append the form-data Content-Type when the slot was
populated; then the tail steps.  `slot` is the slot's leftover contents
from the previous invocation. -/

def generate (env : GenEnv) (reqData : RequestData) (slot : String) : GenOutcome :=
  match env.valuesResult with
  | .error e => ⟨[GenStep.evalValues], slot, .error e⟩
  | .ok data =>
    match env.pathResult data with
    | .error e => ⟨[GenStep.evalValues, GenStep.renderPath], slot, .error e⟩
    | .ok path =>
      match env.methodStep data (setPath (resetRequestData reqData) path) with
      | .error e =>
        ⟨[GenStep.evalValues, GenStep.renderPath, GenStep.renderMethod], slot, .error e⟩
      | .ok rd₂ =>
        match env.bodyStep data rd₂ with
        | .error e =>
          ⟨[GenStep.evalValues, GenStep.renderPath, GenStep.renderMethod,
            GenStep.clearFormDataSlot, GenStep.renderBody], "", .error e⟩
        | .ok bodyOut =>
          match env.headersStep data bodyOut.1 with
          | .error e =>
            ⟨[GenStep.evalValues, GenStep.renderPath, GenStep.renderMethod,
              GenStep.clearFormDataSlot, GenStep.renderBody, GenStep.renderHeaders],
              bodyOut.2, .error e⟩
          | .ok rd₄ =>
            if bodyOut.2 = "" then
              let tail := generateTail env data bodyOut.2 rd₄
              ⟨[GenStep.evalValues, GenStep.renderPath, GenStep.renderMethod,
                GenStep.clearFormDataSlot, GenStep.renderBody, GenStep.renderHeaders] ++
                tail.trace, tail.slot, tail.result⟩
            else
              let tail := generateTail env data bodyOut.2 (appendContentType rd₄ bodyOut.2)
              ⟨[GenStep.evalValues, GenStep.renderPath, GenStep.renderMethod,
                GenStep.clearFormDataSlot, GenStep.renderBody, GenStep.renderHeaders] ++
                [GenStep.appendFormDataContentType] ++ tail.trace, tail.slot, tail.result⟩

/-- A fresh request-data buffer, as acquired at worker start. -/

def emptyRequestData : RequestData :=
  { method := "", url := "", path := "", headers := [], params := [], cookies := [], body := "" }

/-- A concrete all-succeeding environment whose body rendering populates
the form-data slot and whose script chain is non-empty. -/

def sampleGenEnv : GenEnv :=
  { valuesResult := .ok [("k", "v")]
    pathResult := fun _ => .ok "/p"
    methodStep := fun _ rd => .ok { rd with method := "GET" }
    bodyStep := fun _ rd => .ok ({ rd with body := "b" }, "multipart/form-data; boundary=x")
    headersStep := fun _ rd => .ok rd
    paramsStep := fun _ rd => .ok rd
    cookiesStep := fun _ rd => .ok rd
    scriptStep := fun rd => .ok rd
    hasScripts := true }

/-! ## Lua script transform (script package, lua engine) -/

/-- gopher-lua values as seen by the interop boundary. -/

inductive LuaValue where
  | nil
  | boolean (b : Bool)
  | number (n : Int)
  | str (s : String)
  | table (entries : List (LuaValue × LuaValue))

/-- `lua.LValue.Type().String()`, as used in the error message of
`LuaEngine.Transform`. -/

def LuaValue.typeName : LuaValue → String
  | .nil => "nil"
  | .boolean _ => "boolean"
  | .number _ => "number"
  | .str _ => "string"
  | .table _ => "table"

/-- `LTable.RawGetString`: the value at a string key (a Lua table has
unique keys; the first matching entry models the hash lookup), `nil`
when absent. -/

def rawGetString (entries : List (LuaValue × LuaValue)) (key : String) : LuaValue :=
  match entries with
  | [] => .nil
  | (k, v) :: rest =>
    match k with
    | .str s => if s = key then v else rawGetString rest key
    | _ => rawGetString rest key

/-- Go map assignment `result[key] = values` over the association-list
model. -/

def assocSet (m : List (String × List String)) (k : String) (v : List String) :
    List (String × List String) :=
  match m with
  | [] => [(k, v)]
  | (k', v') :: rest => if k' = k then (k, v) :: rest else (k', v') :: assocSet rest k v

/-- `tableToStringSliceMap` (lua engine): string-keyed entries become
map entries; a string value becomes a one-element list, a table value
the list of its string items, anything else is skipped. -/

def luaTableToStringSliceMap (t : List (LuaValue × LuaValue)) : List (String × List String) :=
  t.foldl
    (fun result kv =>
      match kv.1 with
      | .str key =>
        match kv.2 with
        | .str s => assocSet result key [s]
        | .table arr =>
          assocSet result key (arr.filterMap fun e =>
            match e.2 with
            | .str s => some s
            | _ => none)
        | _ => result
      | _ => result)
    []

/-- `map[string][]string → Lua table of arrays` (the `headers` /
`params` / `cookies` marshalling of `requestDataToTable`); `Append`
stores items at the integer keys 1.. -/

def stringSliceMapToLua (m : List (String × List String)) : LuaValue :=
  .table (m.map fun kv =>
    (LuaValue.str kv.1,
     LuaValue.table (kv.2.enum.map fun p => (LuaValue.number (p.1 + 1), LuaValue.str p.2))))

/-- `requestDataToTable` (lua engine). -/

def requestDataToTable (req : RequestData) : LuaValue :=
  .table
    [(LuaValue.str "method", LuaValue.str req.method),
     (LuaValue.str "url", LuaValue.str req.url),
     (LuaValue.str "path", LuaValue.str req.path),
     (LuaValue.str "body", LuaValue.str req.body),
     (LuaValue.str "headers", stringSliceMapToLua req.headers),
     (LuaValue.str "params", stringSliceMapToLua req.params),
     (LuaValue.str "cookies", stringSliceMapToLua req.cookies)]

/-- A string field readback: updated when the returned table holds a
string at the key, unchanged otherwise. -/

def updStr (v : LuaValue) (old : String) : String :=
  match v with
  | .str s => s
  | _ => old

/-- A map field readback: replaced when the returned table holds a table
at the key, unchanged otherwise. -/

def updMap (v : LuaValue) (old : List (String × List String)) : List (String × List String) :=
  match v with
  | .table t => luaTableToStringSliceMap t
  | _ => old

/-- `tableToRequestData` (lua engine): the source assigns the seven
fields one after another, each guarded by a type check on its own key;
the updates touch disjoint fields, so the sequential assignments are the
following record. -/

def tableToRequestData (t : List (LuaValue × LuaValue)) (req : RequestData) : RequestData :=
  { method := updStr (rawGetString t "method") req.method
    url := updStr (rawGetString t "url") req.url
    path := updStr (rawGetString t "path") req.path
    body := updStr (rawGetString t "body") req.body
    headers := updMap (rawGetString t "headers") req.headers
    params := updMap (rawGetString t "params") req.params
    cookies := updMap (rawGetString t "cookies") req.cookies }

/-- `LuaEngine.Transform`: marshal the request, call the script's
`transform` (`call` is the PCall of the loaded function; an `error`
models a Lua runtime error), reject any non-table result, and read the
returned table back into the request data. -/

def luaTransform (call : LuaValue → Except String LuaValue) (req : RequestData) :
    Except String RequestData :=
  match call (requestDataToTable req) with
  | .error e => .error ("lua transform error: " ++ e)
  | .ok result =>
    match result with
    | .table t => .ok (tableToRequestData t req)
    | other => .error ("transform function must return a table, got " ++ other.typeName)

/-- Concrete script call returning a number (a non-object). -/

def luaBadCall : LuaValue → Except String LuaValue := fun _ => .ok (.number 3)

/-- Concrete script call returning a table that sets only `path`. -/

def luaOmitCall : LuaValue → Except String LuaValue :=
  fun _ => .ok (.table [(LuaValue.str "path", LuaValue.str "/new")])

theorem totalCount_nil : totalCount [] = 0 := rfl

theorem totalCount_cons (kc : Nat × Nat) (l : Buckets) :
    totalCount (kc :: l) = kc.2 + totalCount l := by
  simp [totalCount]

theorem prefixCount_cons_succ (kc : Nat × Nat) (l : Buckets) (m : Nat) :
    prefixCount (kc :: l) (m + 1) = kc.2 + prefixCount l m := by
  simp [prefixCount, totalCount]

/-- The percentile walk returns the value of the first bucket whose
cumulative count reaches the target, whenever the target is reachable. -/

theorem percentileLoop_first (a target : Nat) :
    ∀ (l : Buckets) (cum : Nat), l ≠ [] → target ≤ cum + totalCount l →
      ∃ i : Fin l.length,
        percentileLoop a target cum l = some ((l.get i).1 * a) ∧
        target ≤ cum + prefixCount l (i.1 + 1) ∧
        ∀ j < i.1, cum + prefixCount l (j + 1) < target := by
  intro l
  induction l with
  | nil => intro cum h _; exact absurd rfl h
  | cons kc rest ih =>
    intro cum _ hreach
    by_cases hhit : target ≤ cum + kc.2
    · refine ⟨⟨0, by simp⟩, ?_, ?_, ?_⟩
      · simp [percentileLoop, hhit]
      · simpa [prefixCount_cons_succ, prefixCount, totalCount] using hhit
      · intro j hj; simp at hj
    · have hrest : rest ≠ [] := by
        intro hnil
        subst hnil
        simp [totalCount_cons, totalCount_nil] at hreach
        omega
      have hreach' : target ≤ (cum + kc.2) + totalCount rest := by
        rw [totalCount_cons] at hreach; omega
      obtain ⟨i, hval, hge, hlt⟩ := ih (cum + kc.2) hrest hreach'
      refine ⟨⟨i.1 + 1, Nat.succ_lt_succ i.2⟩, ?_, ?_, ?_⟩
      · simpa [percentileLoop, hhit] using hval
      · show target ≤ cum + prefixCount (kc :: rest) (i.1 + 1 + 1)
        rw [prefixCount_cons_succ]; omega
      · show ∀ j < i.1 + 1, cum + prefixCount (kc :: rest) (j + 1) < target
        intro j hj
        match j with
        | 0 =>
          rw [prefixCount_cons_succ]
          simp only [prefixCount, List.take_zero, totalCount_nil]
          omega
        | j' + 1 =>
          rw [prefixCount_cons_succ]
          have := hlt j' (by omega)
          omega

/-- The percentile target rank `(n*p + 99) / 100` used by the source is
below the total count whenever `p ≤ 100`. -/

theorem percentile_target_le_total (n p : Nat) (hp : p ≤ 100) :
    (n * p + 99) / 100 ≤ n := by
  have h : n * p + 99 ≤ 100 * n + 99 := by
    have := Nat.mul_le_mul_left n hp
    omega
  omega

/-- C1.  For every non-empty per-label bucket map (in ascending bucket
order) and every percentile `p ∈ {90, 95, 99}`, the value computed by
`calculatePercentile` is `bucket × accuracy` for the first bucket, in
ascending order, whose cumulative count reaches or exceeds the target
rank `⌈totalCount × p / 100⌉`; and these are exactly the `p90`, `p95`,
`p99` values reported by `calculateStats`. -/

theorem percentile_is_first_bucket_at_ceiling_rank
    (l : Buckets) (a p : Nat) (hne : l ≠ [])
    (hsorted : l.Pairwise (fun x y => x.1 < y.1))
    (hp : p = 90 ∨ p = 95 ∨ p = 99) :
    (∃ i : Fin l.length,
      calculatePercentile l (totalCount l) p a = (l.get i).1 * a ∧
      (totalCount l * p) ⌈/⌉ 100 ≤ prefixCount l (i.1 + 1) ∧
      ∀ j < i.1, prefixCount l (j + 1) < (totalCount l * p) ⌈/⌉ 100) ∧
    (calculateStats l a).p90 = calculatePercentile l (totalCount l) 90 a ∧
    (calculateStats l a).p95 = calculatePercentile l (totalCount l) 95 a ∧
    (calculateStats l a).p99 = calculatePercentile l (totalCount l) 99 a := by
  have hceil : (totalCount l * p) ⌈/⌉ 100 = (totalCount l * p + 99) / 100 := by
    rw [Nat.ceilDiv_eq_add_pred_div]
    congr 1
  have hp100 : p ≤ 100 := by rcases hp with h | h | h <;> omega
  have hreach : (totalCount l * p + 99) / 100 ≤ 0 + totalCount l := by
    simpa using percentile_target_le_total (totalCount l) p hp100
  obtain ⟨i, hval, hge, hlt⟩ :=
    percentileLoop_first a ((totalCount l * p + 99) / 100) l 0 hne hreach
  constructor
  · refine ⟨i, ?_, ?_, ?_⟩
    · simp [calculatePercentile, hval]
    · rw [hceil]; simpa using hge
    · intro j hj; rw [hceil]; simpa using hlt j hj
  · match l, hne with
    | (k₀, c₀) :: rest, _ =>
      refine ⟨?_, ?_, ?_⟩ <;> simp [calculateStats, totalCount]

/-- Witness for C1 at the concrete bucket map `[(1,1),(3,2)]` with
accuracy 100 and percentile 90. -/

theorem percentile_is_first_bucket_at_ceiling_rank_witness :
    (∃ i : Fin (([(1, 1), (3, 2)] : Buckets)).length,
      calculatePercentile [(1, 1), (3, 2)] (totalCount [(1, 1), (3, 2)]) 90 100 =
        (([(1, 1), (3, 2)] : Buckets).get i).1 * 100 ∧
      (totalCount [(1, 1), (3, 2)] * 90) ⌈/⌉ 100 ≤ prefixCount [(1, 1), (3, 2)] (i.1 + 1) ∧
      ∀ j < i.1, prefixCount [(1, 1), (3, 2)] (j + 1) <
        (totalCount [(1, 1), (3, 2)] * 90) ⌈/⌉ 100) ∧
    (calculateStats [(1, 1), (3, 2)] 100).p90 =
      calculatePercentile [(1, 1), (3, 2)] (totalCount [(1, 1), (3, 2)]) 90 100 ∧
    (calculateStats [(1, 1), (3, 2)] 100).p95 =
      calculatePercentile [(1, 1), (3, 2)] (totalCount [(1, 1), (3, 2)]) 95 100 ∧
    (calculateStats [(1, 1), (3, 2)] 100).p99 =
      calculatePercentile [(1, 1), (3, 2)] (totalCount [(1, 1), (3, 2)]) 99 100 :=
  percentile_is_first_bucket_at_ceiling_rank [(1, 1), (3, 2)] 100 90 (by decide) (by decide)
    (Or.inl rfl)

theorem getLastD_of_ne_nil (l : Buckets) (h : l ≠ []) (d : Nat × Nat) :
    l.getLastD d = l.getLast h := by
  rw [List.getLastD_eq_getLast?, List.getLast?_eq_getLast l h]
  rfl

theorem lastKey_mem (l : Buckets) (h : l ≠ []) : l.getLastD (0, 0) ∈ l := by
  rw [getLastD_of_ne_nil l h]
  exact List.getLast_mem h

/-- In a strictly ascending bucket map every key is at most the last. -/

theorem le_lastKey_of_mem (l : Buckets)
    (hsorted : l.Pairwise (fun x y => x.1 < y.1)) :
    ∀ kc ∈ l, kc.1 ≤ lastKey l := by
  induction l with
  | nil => simp
  | cons x xs ih =>
    intro kc hmem
    match xs, hmem with
    | [], hmem =>
      simp at hmem
      subst hmem
      simp [lastKey]
    | y :: ys, hmem =>
      have hlast : lastKey (x :: y :: ys) = lastKey (y :: ys) := by
        simp [lastKey, List.getLastD_cons]
      rw [hlast]
      rcases List.mem_cons.1 hmem with rfl | hmem'
      · have hmemlast : (y :: ys).getLastD (0, 0) ∈ y :: ys :=
          lastKey_mem (y :: ys) (by simp)
        have := (List.pairwise_cons.1 hsorted).1 _ hmemlast
        exact Nat.le_of_lt this
      · exact ih (List.pairwise_cons.1 hsorted).2 kc hmem'

/-- In a strictly ascending bucket map the first key is at most every
key. -/

theorem headKey_le_of_mem (l : Buckets)
    (hsorted : l.Pairwise (fun x y => x.1 < y.1)) :
    ∀ kc ∈ l, headKey l ≤ kc.1 := by
  match l with
  | [] => simp
  | x :: xs =>
    intro kc hmem
    rcases List.mem_cons.1 hmem with rfl | hmem'
    · simp [headKey]
    · exact Nat.le_of_lt ((List.pairwise_cons.1 hsorted).1 kc hmem')

/-- Any value produced in the percentile walk is `key × accuracy` for
some bucket of the map. -/

theorem percentileLoop_mem (a t : Nat) :
    ∀ (l : Buckets) (cum v : Nat), percentileLoop a t cum l = some v →
      ∃ kc ∈ l, v = kc.1 * a := by
  intro l
  induction l with
  | nil => intro cum v h; simp [percentileLoop] at h
  | cons kc rest ih =>
    intro cum v h
    by_cases hhit : t ≤ cum + kc.2
    · simp [percentileLoop, hhit] at h
      exact ⟨kc, by simp, h.symm⟩
    · simp only [percentileLoop, if_neg hhit] at h
      obtain ⟨kc', hmem, hv⟩ := ih (cum + kc.2) v h
      exact ⟨kc', by simp [hmem], hv⟩

theorem percentileLoop_eq_none_of_lt (a t : Nat) :
    ∀ (l : Buckets) (cum : Nat), cum + totalCount l < t →
      percentileLoop a t cum l = none := by
  intro l
  induction l with
  | nil => intro cum _; rfl
  | cons kc rest ih =>
    intro cum hlt
    rw [totalCount_cons] at hlt
    have hhit : ¬ t ≤ cum + kc.2 := by omega
    simp only [percentileLoop, if_neg hhit]
    exact ih (cum + kc.2) (by omega)

theorem lt_of_percentileLoop_eq_none (a t : Nat) :
    ∀ (l : Buckets) (cum : Nat), l ≠ [] → percentileLoop a t cum l = none →
      cum + totalCount l < t := by
  intro l
  induction l with
  | nil => intro cum h _; exact absurd rfl h
  | cons kc rest ih =>
    intro cum _ hnone
    by_cases hhit : t ≤ cum + kc.2
    · simp [percentileLoop, hhit] at hnone
    · simp only [percentileLoop, if_neg hhit] at hnone
      rw [totalCount_cons]
      match rest with
      | [] =>
        simp [totalCount_nil]
        omega
      | r :: rs =>
        have := ih (cum + kc.2) (by simp) hnone
        omega

/-- The percentile walk is monotone in the target when the buckets are
in ascending order (both walks succeeding). -/

theorem percentileLoop_mono (a t₁ t₂ : Nat) (hle : t₁ ≤ t₂) :
    ∀ (l : Buckets) (cum v₁ v₂ : Nat),
      l.Pairwise (fun x y => x.1 < y.1) →
      percentileLoop a t₁ cum l = some v₁ →
      percentileLoop a t₂ cum l = some v₂ → v₁ ≤ v₂ := by
  intro l
  induction l with
  | nil => intro cum v₁ v₂ _ h; simp [percentileLoop] at h
  | cons kc rest ih =>
    intro cum v₁ v₂ hsorted h₁ h₂
    by_cases hhit₂ : t₂ ≤ cum + kc.2
    · have hhit₁ : t₁ ≤ cum + kc.2 := le_trans hle hhit₂
      simp [percentileLoop, hhit₁] at h₁
      simp [percentileLoop, hhit₂] at h₂
      omega
    · by_cases hhit₁ : t₁ ≤ cum + kc.2
      · simp [percentileLoop, hhit₁] at h₁
        simp only [percentileLoop, if_neg hhit₂] at h₂
        obtain ⟨kc', hmem, hv⟩ := percentileLoop_mem a t₂ rest (cum + kc.2) v₂ h₂
        have hk : kc.1 < kc'.1 := (List.pairwise_cons.1 hsorted).1 kc' hmem
        subst hv
        calc v₁ = kc.1 * a := h₁.symm
          _ ≤ kc'.1 * a := Nat.mul_le_mul_right a (Nat.le_of_lt hk)
      · simp only [percentileLoop, if_neg hhit₁] at h₁
        simp only [percentileLoop, if_neg hhit₂] at h₂
        exact ih (cum + kc.2) v₁ v₂ (List.pairwise_cons.1 hsorted).2 h₁ h₂

/-- Every percentile value lies between `headKey × accuracy` and
`lastKey × accuracy`. -/

theorem calculatePercentile_bounds (l : Buckets) (n p a : Nat) (hne : l ≠ [])
    (hsorted : l.Pairwise (fun x y => x.1 < y.1)) :
    headKey l * a ≤ calculatePercentile l n p a ∧
      calculatePercentile l n p a ≤ lastKey l * a := by
  cases hloop : percentileLoop a ((n * p + 99) / 100) 0 l with
  | none =>
    simp only [calculatePercentile, hloop]
    have hmem := lastKey_mem l hne
    exact ⟨Nat.mul_le_mul_right a (headKey_le_of_mem l hsorted _ hmem), le_refl _⟩
  | some v =>
    simp only [calculatePercentile, hloop]
    obtain ⟨kc, hmem, hv⟩ := percentileLoop_mem a _ l 0 v hloop
    subst hv
    exact ⟨Nat.mul_le_mul_right a (headKey_le_of_mem l hsorted kc hmem),
      Nat.mul_le_mul_right a (le_lastKey_of_mem l hsorted kc hmem)⟩

/-- The reported percentile is monotone in the percentile argument. -/

theorem calculatePercentile_mono (l : Buckets) (n p q a : Nat) (hne : l ≠ [])
    (hsorted : l.Pairwise (fun x y => x.1 < y.1)) (hpq : p ≤ q) :
    calculatePercentile l n p a ≤ calculatePercentile l n q a := by
  have htarget : (n * p + 99) / 100 ≤ (n * q + 99) / 100 :=
    Nat.div_le_div_right (by have := Nat.mul_le_mul_left n hpq; omega)
  cases hq : percentileLoop a ((n * q + 99) / 100) 0 l with
  | none =>
    cases hp : percentileLoop a ((n * p + 99) / 100) 0 l with
    | none => simp only [calculatePercentile, hp, hq]; exact le_refl _
    | some v =>
      simp only [calculatePercentile, hp, hq]
      obtain ⟨kc, hmem, hv⟩ := percentileLoop_mem a _ l 0 v hp
      subst hv
      exact Nat.mul_le_mul_right a (le_lastKey_of_mem l hsorted kc hmem)
  | some v₂ =>
    cases hp : percentileLoop a ((n * p + 99) / 100) 0 l with
    | none =>
      exfalso
      have hlt := lt_of_percentileLoop_eq_none a _ l 0 hne hp
      have : percentileLoop a ((n * q + 99) / 100) 0 l = none :=
        percentileLoop_eq_none_of_lt a _ l 0 (by omega)
      rw [this] at hq
      exact Option.noConfusion hq
    | some v₁ =>
      simp only [calculatePercentile, hp, hq]
      exact percentileLoop_mono a _ _ htarget l 0 v₁ v₂ hsorted hp hq

/-- The weighted duration sum is bounded by the extreme keys times the
total count. -/

theorem weightedSum_bounds (l : Buckets) (a lo hi : Nat)
    (h : ∀ kc ∈ l, lo ≤ kc.1 ∧ kc.1 ≤ hi) :
    lo * a * totalCount l ≤ weightedSum l a ∧
      weightedSum l a ≤ hi * a * totalCount l := by
  induction l with
  | nil => simp [weightedSum, totalCount]
  | cons kc rest ih =>
    have hkc := h kc (by simp)
    have hih := ih fun kc' hm => h kc' (by simp [hm])
    rw [totalCount_cons]
    have hws : weightedSum (kc :: rest) a = kc.1 * a * kc.2 + weightedSum rest a := by
      simp [weightedSum]
    rw [hws]
    constructor
    · have h1 : lo * a * kc.2 ≤ kc.1 * a * kc.2 :=
        Nat.mul_le_mul_right _ (Nat.mul_le_mul_right a hkc.1)
      calc lo * a * (kc.2 + totalCount rest)
          = lo * a * kc.2 + lo * a * totalCount rest := by ring
        _ ≤ kc.1 * a * kc.2 + weightedSum rest a := Nat.add_le_add h1 hih.1
    · have h1 : kc.1 * a * kc.2 ≤ hi * a * kc.2 :=
        Nat.mul_le_mul_right _ (Nat.mul_le_mul_right a hkc.2)
      calc kc.1 * a * kc.2 + weightedSum rest a
          ≤ hi * a * kc.2 + hi * a * totalCount rest := Nat.add_le_add h1 hih.2
        _ = hi * a * (kc.2 + totalCount rest) := by ring

/-- Rounded-to-nearest division is at least the floor quotient of any
lower bound. -/

theorem le_divNearest (m x y : Nat) (hy : 0 < y) (h : m * y ≤ x) :
    m ≤ divNearest x y := by
  have hfloor : m ≤ x / y := (Nat.le_div_iff_mul_le hy).2 h
  by_cases hcase : y ≤ 2 * (x % y)
  · have hres : divNearest x y = x / y + 1 := by simp [divNearest, hcase]
    omega
  · have hres : divNearest x y = x / y := by simp [divNearest, hcase]
    omega

/-- Rounded-to-nearest division respects an exact upper bound. -/

theorem divNearest_le (x y M : Nat) (hy : 0 < y) (h : x ≤ M * y) :
    divNearest x y ≤ M := by
  have hmod := Nat.div_add_mod x y
  have hcomm : M * y = y * M := Nat.mul_comm M y
  have hdiv : x / y ≤ M := by
    rw [Nat.div_le_iff_le_mul_add_pred hy]
    omega
  by_cases hcase : y ≤ 2 * (x % y)
  · have hres : divNearest x y = x / y + 1 := by simp [divNearest, hcase]
    rw [hres]
    have hrpos : 0 < x % y := by omega
    have h1 : y * (x / y) < x := by omega
    have h4 : x ≤ y * M := by omega
    have h3 : x / y < M := Nat.lt_of_mul_lt_mul_left (lt_of_lt_of_le h1 h4)
    omega
  · have hres : divNearest x y = x / y := by simp [divNearest, hcase]
    rw [hres]
    exact hdiv

theorem totalCount_pos (l : Buckets) (hne : l ≠ [])
    (hpos : ∀ kc ∈ l, 1 ≤ kc.2) : 1 ≤ totalCount l := by
  match l with
  | kc :: rest =>
    rw [totalCount_cons]
    have := hpos kc (by simp)
    omega

/-- C3.  For every label with a non-empty, strictly ascending bucket map
whose counts are all positive, the summary satisfies
`min ≤ p90 ≤ p95 ≤ p99 ≤ max` and `min ≤ average ≤ max`. -/

theorem stats_min_le_percentiles_avg_le_max
    (l : Buckets) (a : Nat) (hne : l ≠ [])
    (hsorted : l.Pairwise (fun x y => x.1 < y.1))
    (hpos : ∀ kc ∈ l, 1 ≤ kc.2) :
    (calculateStats l a).min ≤ (calculateStats l a).p90 ∧
    (calculateStats l a).p90 ≤ (calculateStats l a).p95 ∧
    (calculateStats l a).p95 ≤ (calculateStats l a).p99 ∧
    (calculateStats l a).p99 ≤ (calculateStats l a).max ∧
    (calculateStats l a).min ≤ (calculateStats l a).average ∧
    (calculateStats l a).average ≤ (calculateStats l a).max := by
  match l, hne, hsorted, hpos with
  | (k₀, c₀) :: rest, _, hsorted, hpos =>
    have hne' : ((k₀, c₀) :: rest : Buckets) ≠ [] := by simp
    have hhead : headKey ((k₀, c₀) :: rest) = k₀ := rfl
    have hlast : lastKey ((k₀, c₀) :: rest) = (rest.getLastD (k₀, c₀)).1 := by
      show (((k₀, c₀) :: rest : Buckets).getLastD (0, 0)).1 = _
      rw [List.getLastD_cons]
    have hmin : (calculateStats ((k₀, c₀) :: rest) a).min = k₀ * a := by
      simp [calculateStats]
    have hmax : (calculateStats ((k₀, c₀) :: rest) a).max =
        lastKey ((k₀, c₀) :: rest) * a := by
      simp [calculateStats, hlast]
    have hp90 : (calculateStats ((k₀, c₀) :: rest) a).p90 =
        calculatePercentile ((k₀, c₀) :: rest) (totalCount ((k₀, c₀) :: rest)) 90 a := by
      simp [calculateStats, totalCount]
    have hp95 : (calculateStats ((k₀, c₀) :: rest) a).p95 =
        calculatePercentile ((k₀, c₀) :: rest) (totalCount ((k₀, c₀) :: rest)) 95 a := by
      simp [calculateStats, totalCount]
    have hp99 : (calculateStats ((k₀, c₀) :: rest) a).p99 =
        calculatePercentile ((k₀, c₀) :: rest) (totalCount ((k₀, c₀) :: rest)) 99 a := by
      simp [calculateStats, totalCount]
    have havg : (calculateStats ((k₀, c₀) :: rest) a).average =
        divNearest (weightedSum ((k₀, c₀) :: rest) a) (totalCount ((k₀, c₀) :: rest)) := by
      simp [calculateStats, totalCount, weightedSum]
    have hn : 0 < totalCount ((k₀, c₀) :: rest) := totalCount_pos _ hne' hpos
    have hbounds90 := calculatePercentile_bounds ((k₀, c₀) :: rest)
      (totalCount ((k₀, c₀) :: rest)) 90 a hne' hsorted
    have hbounds99 := calculatePercentile_bounds ((k₀, c₀) :: rest)
      (totalCount ((k₀, c₀) :: rest)) 99 a hne' hsorted
    have hws := weightedSum_bounds ((k₀, c₀) :: rest) a
      (headKey ((k₀, c₀) :: rest)) (lastKey ((k₀, c₀) :: rest))
      fun kc hm => ⟨headKey_le_of_mem _ hsorted kc hm, le_lastKey_of_mem _ hsorted kc hm⟩
    refine ⟨?_, ?_, ?_, ?_, ?_, ?_⟩
    · rw [hmin, hp90]
      simpa [hhead] using hbounds90.1
    · rw [hp90, hp95]
      exact calculatePercentile_mono _ _ 90 95 a hne' hsorted (by omega)
    · rw [hp95, hp99]
      exact calculatePercentile_mono _ _ 95 99 a hne' hsorted (by omega)
    · rw [hp99, hmax]
      exact hbounds99.2
    · rw [hmin, havg]
      refine le_divNearest (k₀ * a) _ _ hn ?_
      simpa [hhead] using hws.1
    · rw [havg, hmax]
      exact divNearest_le _ _ _ hn hws.2

/-- Witness for C3 at the concrete bucket map `[(1,2),(3,1)]` with
accuracy 100. -/

theorem stats_min_le_percentiles_avg_le_max_witness :
    (calculateStats [(1, 2), (3, 1)] 100).min ≤ (calculateStats [(1, 2), (3, 1)] 100).p90 ∧
    (calculateStats [(1, 2), (3, 1)] 100).p90 ≤ (calculateStats [(1, 2), (3, 1)] 100).p95 ∧
    (calculateStats [(1, 2), (3, 1)] 100).p95 ≤ (calculateStats [(1, 2), (3, 1)] 100).p99 ∧
    (calculateStats [(1, 2), (3, 1)] 100).p99 ≤ (calculateStats [(1, 2), (3, 1)] 100).max ∧
    (calculateStats [(1, 2), (3, 1)] 100).min ≤ (calculateStats [(1, 2), (3, 1)] 100).average ∧
    (calculateStats [(1, 2), (3, 1)] 100).average ≤ (calculateStats [(1, 2), (3, 1)] 100).max :=
  stats_min_le_percentiles_avg_le_max [(1, 2), (3, 1)] 100 (by decide) (by decide) (by decide)

theorem mergeBuckets_nil_left (ys : Buckets) : mergeBuckets [] ys = ys := by
  cases ys <;> simp [mergeBuckets]

theorem mergeBuckets_nil_right (xs : Buckets) : mergeBuckets xs [] = xs := by
  cases xs <;> simp [mergeBuckets]

theorem mergeBuckets_cons_cons (k₁ c₁ k₂ c₂ : Nat) (xs ys : Buckets) :
    mergeBuckets ((k₁, c₁) :: xs) ((k₂, c₂) :: ys) =
      if k₁ < k₂ then (k₁, c₁) :: mergeBuckets xs ((k₂, c₂) :: ys)
      else if k₂ < k₁ then (k₂, c₂) :: mergeBuckets ((k₁, c₁) :: xs) ys
      else (k₁, c₁ + c₂) :: mergeBuckets xs ys := by
  rw [mergeBuckets]

/-- Merging bucket maps adds their total counts. -/

theorem totalCount_mergeBuckets :
    ∀ xs ys : Buckets, totalCount (mergeBuckets xs ys) = totalCount xs + totalCount ys := by
  intro xs
  induction xs with
  | nil => intro ys; rw [mergeBuckets_nil_left, totalCount_nil]; omega
  | cons x xs ihx =>
    intro ys
    induction ys with
    | nil => rw [mergeBuckets_nil_right, totalCount_nil]; omega
    | cons y ys ihy =>
      obtain ⟨k₁, c₁⟩ := x
      obtain ⟨k₂, c₂⟩ := y
      rw [mergeBuckets_cons_cons]
      by_cases h1 : k₁ < k₂
      · rw [if_pos h1]
        simp only [totalCount_cons, ihx ((k₂, c₂) :: ys)]
        omega
      · by_cases h2 : k₂ < k₁
        · rw [if_neg h1, if_pos h2]
          simp only [totalCount_cons, ihy]
          omega
        · rw [if_neg h1, if_neg h2]
          simp only [totalCount_cons, ihx ys]
          omega

theorem mergeBuckets_ne_nil_right (xs ys : Buckets) (h : ys ≠ []) :
    mergeBuckets xs ys ≠ [] := by
  match xs, ys with
  | [], ys => rw [mergeBuckets_nil_left]; exact h
  | x :: xs, [] => exact absurd rfl h
  | (k₁, c₁) :: xs, (k₂, c₂) :: ys =>
    rw [mergeBuckets]
    by_cases h1 : k₁ < k₂ <;> by_cases h2 : k₂ < k₁ <;> simp [h1, h2]

theorem mergeAllBuckets_go_count (rs : Sketch) :
    ∀ acc : Buckets, totalCount (rs.foldl (fun acc r => mergeBuckets acc r.2) acc) =
      totalCount acc + (rs.map fun r => totalCount r.2).sum := by
  induction rs with
  | nil => intro acc; simp
  | cons r rest ih =>
    intro acc
    simp only [List.foldl_cons, List.map_cons, List.sum_cons]
    rw [ih, totalCount_mergeBuckets]
    omega

/-- The merged aggregate counts exactly the sum of the per-label
counts. -/

theorem totalCount_mergeAllBuckets (rs : Sketch) :
    totalCount (mergeAllBuckets rs) = (rs.map fun r => totalCount r.2).sum := by
  have := mergeAllBuckets_go_count rs []
  simpa [mergeAllBuckets, totalCount_nil] using this

theorem mergeAllBuckets_go_ne_nil (rs : Sketch) :
    ∀ acc : Buckets, acc ≠ [] →
      rs.foldl (fun acc r => mergeBuckets acc r.2) acc ≠ [] := by
  induction rs with
  | nil => intro acc h; simpa using h
  | cons r rest ih =>
    intro acc h
    simp only [List.foldl_cons]
    by_cases hr : r.2 = []
    · rw [hr, mergeBuckets_nil_right]
      exact ih acc h
    · exact ih _ (mergeBuckets_ne_nil_right acc r.2 hr)

theorem calculateStats_count (l : Buckets) (hne : l ≠ []) (a : Nat) :
    (calculateStats l a).count = some (totalCount l) := by
  match l, hne with
  | (k₀, c₀) :: rest, _ => simp [calculateStats, totalCount]

/-- C2.  The reported total row always equals the general merge path
(`calculateStats` over the aggregation of all labels' buckets) — in
particular the single-label fast path agrees with it — the reported
per-label rows are exactly `calculateStats` of each label's buckets, and
for a sketch with at least one label (each with a non-empty bucket map,
as the sketch's `Add` guarantees) `total.count` is the sum of all
per-label counts. -/

theorem total_row_is_merged_aggregate (rs : Sketch) (a : Nat)
    (hne : rs ≠ []) (hb : ∀ r ∈ rs, r.2 ≠ []) :
    (prepareOutputData rs a).total = calculateStats (mergeAllBuckets rs) a ∧
    (prepareOutputData rs a).responses = rs.map (fun r => (r.1, calculateStats r.2 a)) ∧
    (prepareOutputData rs a).total.count = some ((rs.map fun r => totalCount r.2).sum) ∧
    ∀ r ∈ rs, (calculateStats r.2 a).count = some (totalCount r.2) := by
  have hmergene : mergeAllBuckets rs ≠ [] := by
    match rs, hne with
    | r :: rest, _ =>
      have hr : r.2 ≠ [] := hb r (by simp)
      unfold mergeAllBuckets
      simp only [List.foldl_cons]
      exact mergeAllBuckets_go_ne_nil rest _
        (by rw [mergeBuckets_nil_left]; exact hr)
  have htotal : (prepareOutputData rs a).total = calculateStats (mergeAllBuckets rs) a := by
    match rs, hne with
    | [(key, b)], _ =>
      have : mergeAllBuckets [(key, b)] = b := by
        simp [mergeAllBuckets, mergeBuckets_nil_left]
      simp [prepareOutputData, this]
    | r₁ :: r₂ :: rest, _ => rfl
  have hresp : (prepareOutputData rs a).responses =
      rs.map (fun r => (r.1, calculateStats r.2 a)) := by
    match rs, hne with
    | [(key, b)], _ => simp [prepareOutputData]
    | r₁ :: r₂ :: rest, _ => rfl
  refine ⟨htotal, hresp, ?_, ?_⟩
  · rw [htotal, calculateStats_count _ hmergene a, totalCount_mergeAllBuckets]
  · intro r hr
    exact calculateStats_count r.2 (hb r hr) a

/-- Witness for C2 at a concrete two-label sketch with accuracy 100. -/

theorem total_row_is_merged_aggregate_witness :
    (prepareOutputData [("200", [(1, 2)]), ("404", [(3, 1)])] 100).total =
      calculateStats (mergeAllBuckets [("200", [(1, 2)]), ("404", [(3, 1)])]) 100 ∧
    (prepareOutputData [("200", [(1, 2)]), ("404", [(3, 1)])] 100).responses =
      ([("200", [(1, 2)]), ("404", [(3, 1)])] : Sketch).map
        (fun r => (r.1, calculateStats r.2 100)) ∧
    (prepareOutputData [("200", [(1, 2)]), ("404", [(3, 1)])] 100).total.count =
      some ((([("200", [(1, 2)]), ("404", [(3, 1)])] : Sketch).map
        fun r => totalCount r.2).sum) ∧
    ∀ r ∈ ([("200", [(1, 2)]), ("404", [(3, 1)])] : Sketch),
      (calculateStats r.2 100).count = some (totalCount r.2) :=
  total_row_is_merged_aggregate [("200", [(1, 2)]), ("404", [(3, 1)])] 100
    (by decide) (by decide)

/-- Counterexample for C2 as stated: at the empty sketch (reachable when
the run is cancelled before any outcome is recorded) the total row's
count is the zero-value `BigInt` (nil pointer), not the sum `0` of the
(empty) per-label counts. -/

theorem empty_sketch_total_count_is_nil_not_zero :
    ((([] : Sketch).map fun r => totalCount r.2).sum = 0) ∧
    (prepareOutputData [] 100).total.count = none ∧
    (prepareOutputData [] 100).total.count ≠ some 0 :=
  ⟨rfl, rfl, by decide⟩

/-- C8, evaluated at the failing input: when cancellation arrives before
any outcome is recorded the sketch is empty, and `prepareOutputData`
returns a report with no labels but a zero-value `responseStat` whose
count is the nil `big.Int` — rendered `<nil>` instead of `0` (and
invalid as a JSON number), contradicting the claimed well-formed empty
report. -/

theorem empty_report_total_count_is_nil :
    (prepareOutputData [] 100).responses = [] ∧
    (prepareOutputData [] 100).total.count = none ∧
    bigIntString (prepareOutputData [] 100).total.count = "<nil>" ∧
    bigIntString (some 0) = "0" :=
  ⟨rfl, rfl, rfl, rfl⟩

/-- Rounding produces the nearest multiple of `m` (ties away from
zero). -/

theorem roundDuration_nearest (d m : Nat) (hm : 0 < m) :
    roundDuration d m % m = 0 ∧
    ((roundDuration d m ≤ d ∧ 2 * (d - roundDuration d m) < m) ∨
     (d ≤ roundDuration d m ∧ 2 * (roundDuration d m - d) ≤ m)) := by
  have hne : ¬ m = 0 := by omega
  have hmod := Nat.div_add_mod d m
  have hr : d % m < m := Nat.mod_lt d hm
  by_cases hc : d % m + d % m < m
  · have hk : roundDuration d m = d - d % m := by simp [roundDuration, hne, hc]
    have hsub : d - d % m = m * (d / m) := by omega
    constructor
    · rw [hk, hsub]
      exact Nat.mul_mod_right m (d / m)
    · left
      constructor
      · omega
      · rw [hk]; omega
  · have hk : roundDuration d m = d + (m - d % m) := by simp [roundDuration, hne, hc]
    have hmul : m * (d / m + 1) = m * (d / m) + m := by ring
    have hsum : d + (m - d % m) = m * (d / m + 1) := by omega
    constructor
    · rw [hk, hsum]
      exact Nat.mul_mod_right m (d / m + 1)
    · right
      constructor
      · omega
      · rw [hk]; omega

/-- C7 (amended).  The table rendering `Duration.String` rounds to the
nearest millisecond multiple at or above one second, to the nearest
microsecond multiple at or above one millisecond, and renders exactly
below one millisecond; the JSON and YAML marshalers serialize the exact
(unrounded) Go duration string. -/

theorem duration_render_rounds_table_marshal_exact (d : Nat) :
    (1000000000 ≤ d →
      ∃ k, durationRenderString d = goDurationString k ∧ k % 1000000 = 0 ∧
        ((k ≤ d ∧ 2 * (d - k) < 1000000) ∨ (d ≤ k ∧ 2 * (k - d) ≤ 1000000))) ∧
    (1000000 ≤ d → d < 1000000000 →
      ∃ k, durationRenderString d = goDurationString k ∧ k % 1000 = 0 ∧
        ((k ≤ d ∧ 2 * (d - k) < 1000) ∨ (d ≤ k ∧ 2 * (k - d) ≤ 1000))) ∧
    (d < 1000000 → durationRenderString d = goDurationString d) ∧
    durationMarshalJSON d = "\"" ++ goDurationString d ++ "\"" ∧
    durationMarshalYAML d = goDurationString d := by
  refine ⟨?_, ?_, ?_, rfl, rfl⟩
  · intro hd
    refine ⟨roundDuration d 1000000, ?_, roundDuration_nearest d 1000000 (by omega)⟩
    simp [durationRenderString, hd]
  · intro hd hd'
    refine ⟨roundDuration d 1000, ?_, roundDuration_nearest d 1000 (by omega)⟩
    have : ¬ 1000000000 ≤ d := by omega
    simp [durationRenderString, this, hd]
  · intro hd
    have h1 : ¬ 1000000000 ≤ d := by omega
    have h2 : ¬ 1000000 ≤ d := by omega
    simp [durationRenderString, h1, h2]

/-- Witness for the amended C7 at `d = 1000000001` ns. -/

theorem duration_render_rounds_witness :
    ∃ k, durationRenderString 1000000001 = goDurationString k ∧ k % 1000000 = 0 ∧
      ((k ≤ 1000000001 ∧ 2 * (1000000001 - k) < 1000000) ∨
       (1000000001 ≤ k ∧ 2 * (k - 1000000001) ≤ 1000000)) :=
  (duration_render_rounds_table_marshal_exact 1000000001).1 (by omega)

/-- Counterexample for C7 as stated: at `d = 1000000001` ns (1 s + 1 ns)
the table rendering is the millisecond-rounded `1s`, but the JSON and
YAML serializations carry the unrounded `1.000000001s`. -/

theorem json_yaml_duration_not_rounded :
    durationRenderString 1000000001 = "1s" ∧
    durationMarshalYAML 1000000001 = "1.000000001s" ∧
    durationMarshalJSON 1000000001 = "\"1.000000001s\"" ∧
    durationMarshalYAML 1000000001 ≠ durationRenderString 1000000001 := by
  refine ⟨by decide, by decide, by decide, by decide⟩

/-- Counterexample for C9 as stated: for the source
`http://example.com/` the URL path is `/`, so the claim prescribes the
`downloaded_file` fallback, but the code takes `path.Base` of the whole
URL string and returns `example.com`. -/

theorem url_filename_diverges_from_spec :
    getOrLoadFilename "http://example.com/" = "example.com" ∧
    specURLFilename "http://example.com/" = "downloaded_file" ∧
    getOrLoadFilename "http://example.com/" ≠ specURLFilename "http://example.com/" :=
  ⟨by decide, by decide, by decide⟩

/-- The basename never contains a path separator (except the degenerate
all-slash result `/`). -/

theorem pathBase_no_slash (s : String) :
    pathBase s = "/" ∨ pathBase s = "." ∨ ∀ c ∈ (pathBase s).toList, c ≠ '/' := by
  by_cases h0 : s = ""
  · right; left
    simp only [pathBase, if_pos h0]
  · by_cases h1 : (s.toList.reverse.dropWhile (fun c => c = '/')).reverse = []
    · left
      simp only [pathBase, if_neg h0, if_pos h1]
    · right; right
      intro c hc
      have hval : pathBase s =
          String.mk ((((s.toList.reverse.dropWhile (fun c => c = '/')).reverse).reverse.takeWhile
            (fun c => c ≠ '/')).reverse) := by
        simp only [pathBase, if_neg h0, if_neg h1]
      rw [hval] at hc
      have htl : (String.mk ((((s.toList.reverse.dropWhile (fun c => c = '/')).reverse).reverse.takeWhile
          (fun c => c ≠ '/')).reverse)).toList =
          (((s.toList.reverse.dropWhile (fun c => c = '/')).reverse).reverse.takeWhile
            (fun c => c ≠ '/')).reverse := rfl
      rw [htl] at hc
      have hc' := List.mem_reverse.1 hc
      have hp := List.mem_takeWhile_imp hc'
      simpa using hp

/-- C9 (amended).  Local sources: the filename is the basename of the
path.  HTTP/HTTPS sources: the filename is `path.Base` applied to the
whole URL string; the `downloaded_file` fallback applies only when that
base is empty, `/` or `.`; the query suffix starting at the first `?` is
stripped only afterwards (so the result can be empty or derived from the
host).  Basenames contain no path separator. -/

theorem filename_rules_amended (s : String) :
    (hasHTTPScheme s = false → getOrLoadFilename s = pathBase s) ∧
    (hasHTTPScheme s = true →
      getOrLoadFilename s = stripFromQuery
        (if pathBase s = "" || pathBase s = "/" || pathBase s = "." then "downloaded_file"
         else pathBase s)) ∧
    (pathBase s = "/" ∨ pathBase s = "." ∨ ∀ c ∈ (pathBase s).toList, c ≠ '/') := by
  refine ⟨?_, ?_, pathBase_no_slash s⟩
  · intro h
    simp [getOrLoadFilename, readLocalFilename, h]
  · intro h
    simp [getOrLoadFilename, fetchURLFilename, h]

/-- Witness for the amended C9 at a local path and an HTTP URL with a
query string. -/

theorem filename_rules_amended_witness :
    getOrLoadFilename "/tmp/dir/file.txt" = "file.txt" ∧
    getOrLoadFilename "http://example.com/dir/report.pdf?session=1" = "report.pdf" ∧
    pathBase "/tmp/dir/file.txt" = "file.txt" := by
  have h1 := (filename_rules_amended "/tmp/dir/file.txt").1 (by decide)
  have h2 := (filename_rules_amended "http://example.com/dir/report.pdf?session=1").2.1 (by decide)
  refine ⟨?_, ?_, by decide⟩
  · rw [h1]; decide
  · rw [h2]; decide

theorem statsStaticErrLoop_spec (e : String) (accuracy : Nat) :
    ∀ (n : Nat) (st : WorkerResult),
      statsStaticErrLoop e accuracy n st =
        ⟨(fun sk => sketchAdd sk e 0 accuracy)^[n] st.sketch, st.counter + n, st.dispatched⟩ := by
  intro n
  induction n with
  | zero => intro st; simp [statsStaticErrLoop]
  | succ n ih =>
    intro st
    rw [statsStaticErrLoop, ih]
    simp only [Function.iterate_succ_apply]
    congr 1
    omega

/-- Repeatedly recording label `e` at elapsed 0 yields a single-label,
single-bucket sketch with count `n`. -/

theorem iterate_sketchAdd_err (e : String) (accuracy : Nat) :
    ∀ n : Nat, (fun sk => sketchAdd sk e 0 accuracy)^[n] [] =
      if n = 0 then [] else [(e, [(0, n)])] := by
  intro n
  induction n with
  | zero => simp
  | succ n ih =>
    rw [Function.iterate_succ_apply', ih]
    by_cases hn : n = 0
    · subst hn
      simp [sketchAdd, sketchAdd.sketchAddBucket]
    · rw [if_neg hn, if_neg (Nat.succ_ne_zero n)]
      simp [sketchAdd, sketchAdd.sketchAddBucket, bucketsIncr]

/-- C10.  In the static stats-collecting worker loops (live and
dry-run), if the one-time request generation fails with error `e`, then
after consuming `n` job tokens: no request was ever dispatched, the
global counter was incremented exactly once per token, and the sketch
holds exactly the label `e` at bucket 0 (elapsed 0) with count `n`. -/

theorem static_stats_generation_error_records_per_token
    (e : String) (n accuracy : Nat) (dispatch : Nat → String × Nat) :
    (workerStatsWithStatic (Except.error e) n dispatch accuracy).dispatched = 0 ∧
    (workerStatsWithStatic (Except.error e) n dispatch accuracy).counter = n ∧
    (workerStatsWithStatic (Except.error e) n dispatch accuracy).sketch =
      (if n = 0 then [] else [(e, [(0, n)])]) ∧
    (workerDryRunStatsWithStatic (Except.error e) n accuracy).dispatched = 0 ∧
    (workerDryRunStatsWithStatic (Except.error e) n accuracy).counter = n ∧
    (workerDryRunStatsWithStatic (Except.error e) n accuracy).sketch =
      (if n = 0 then [] else [(e, [(0, n)])]) := by
  have hloop := statsStaticErrLoop_spec e accuracy n ⟨[], 0, 0⟩
  have hiter := iterate_sketchAdd_err e accuracy n
  have hlive : workerStatsWithStatic (Except.error e) n dispatch accuracy =
      statsStaticErrLoop e accuracy n ⟨[], 0, 0⟩ := rfl
  have hdry : workerDryRunStatsWithStatic (Except.error e) n accuracy =
      statsStaticErrLoop e accuracy n ⟨[], 0, 0⟩ := rfl
  rw [hlive, hdry, hloop]
  simp [hiter]

theorem foldl_or_eq_any {α : Type} (f : α → Bool) :
    ∀ (l : List α) (b : Bool), l.foldl (fun acc x => acc || f x) b = (b || l.any f) := by
  intro l
  induction l with
  | nil => intro b; simp
  | cons x xs ih =>
    intro b
    simp only [List.foldl_cons, List.any_cons, ih (b || f x)]
    cases b <;> cases f x <;> simp

theorem createTemplateFuncDynamic_iff (t : Tmpl) :
    createTemplateFuncDynamic t = true ↔ SpecFieldDynamic t := by
  cases t with
  | none => simp [createTemplateFuncDynamic, SpecFieldDynamic]
  | some nodes =>
    simp [createTemplateFuncDynamic, hasTemplateActions, SpecFieldDynamic, List.any_eq_true]

theorem buildStringSliceGeneratorDynamic_iff (values : List Tmpl) :
    buildStringSliceGeneratorDynamic values = true ↔ SpecSliceDynamic values := by
  unfold buildStringSliceGeneratorDynamic
  by_cases hempty : values.isEmpty
  · have hnil : values = [] := List.isEmpty_iff.1 hempty
    subst hnil
    simp [SpecSliceDynamic]
  · rw [if_neg hempty, foldl_or_eq_any]
    simp only [Bool.or_eq_true, decide_eq_true_eq, List.any_eq_true, SpecSliceDynamic]
    constructor
    · rintro (h | ⟨v, hv, hdyn⟩)
      · exact Or.inl h
      · exact Or.inr ⟨v, hv, (createTemplateFuncDynamic_iff v).1 hdyn⟩
    · rintro (h | ⟨v, hv, hdyn⟩)
      · exact Or.inl h
      · exact Or.inr ⟨v, hv, (createTemplateFuncDynamic_iff v).2 hdyn⟩

theorem buildKeyValueGeneratorsDynamic_iff (items : List KeyValueSpec) :
    buildKeyValueGeneratorsDynamic items = true ↔ SpecKeyValueDynamic items := by
  unfold buildKeyValueGeneratorsDynamic
  have hfold : items.foldl
      (fun acc item =>
        acc || createTemplateFuncDynamic item.key ||
          item.values.any createTemplateFuncDynamic || decide (1 < item.values.length))
      false =
      items.foldl
        (fun acc item =>
          acc || (createTemplateFuncDynamic item.key ||
            item.values.any createTemplateFuncDynamic || decide (1 < item.values.length)))
        false := by
    congr 1
    funext acc item
    cases acc <;> simp
  rw [hfold, foldl_or_eq_any]
  simp only [Bool.false_or, List.any_eq_true, Bool.or_eq_true, decide_eq_true_eq,
    SpecKeyValueDynamic]
  constructor
  · rintro ⟨item, hmem, h⟩
    refine ⟨item, hmem, ?_⟩
    rcases h with (hk | ⟨v, hv, hdyn⟩) | hlen
    · exact Or.inl ((createTemplateFuncDynamic_iff item.key).1 hk)
    · exact Or.inr (Or.inl ⟨v, hv, (createTemplateFuncDynamic_iff v).1 hdyn⟩)
    · exact Or.inr (Or.inr hlen)
  · rintro ⟨item, hmem, h⟩
    refine ⟨item, hmem, ?_⟩
    rcases h with hk | ⟨v, hv, hdyn⟩ | hlen
    · exact Or.inl (Or.inl ((createTemplateFuncDynamic_iff item.key).2 hk))
    · exact Or.inl (Or.inr ⟨v, hv, (createTemplateFuncDynamic_iff v).2 hdyn⟩)
    · exact Or.inr hlen

/-- C4.  A field is classified dynamic iff its template contains an
action node or it has more than one alternative, and the boolean
returned alongside the request generator is the OR of the path, method,
params, headers, cookies and body flags and the presence of any
script. -/

theorem request_generator_dynamism_iff (path : Tmpl) (methods bodies : List Tmpl)
    (params headers cookies : List KeyValueSpec) (hasScripts : Bool) :
    (createTemplateFuncDynamic path = true ↔ SpecFieldDynamic path) ∧
    (buildStringSliceGeneratorDynamic methods = true ↔ SpecSliceDynamic methods) ∧
    (buildStringSliceGeneratorDynamic bodies = true ↔ SpecSliceDynamic bodies) ∧
    (buildKeyValueGeneratorsDynamic params = true ↔ SpecKeyValueDynamic params) ∧
    (buildKeyValueGeneratorsDynamic headers = true ↔ SpecKeyValueDynamic headers) ∧
    (buildKeyValueGeneratorsDynamic cookies = true ↔ SpecKeyValueDynamic cookies) ∧
    (newRequestGeneratorIsDynamic path methods params headers cookies bodies hasScripts = true ↔
      (SpecFieldDynamic path ∨ SpecSliceDynamic methods ∨ SpecKeyValueDynamic params ∨
       SpecKeyValueDynamic headers ∨ SpecKeyValueDynamic cookies ∨ SpecSliceDynamic bodies ∨
       hasScripts = true)) := by
  refine ⟨createTemplateFuncDynamic_iff path, buildStringSliceGeneratorDynamic_iff methods,
    buildStringSliceGeneratorDynamic_iff bodies, buildKeyValueGeneratorsDynamic_iff params,
    buildKeyValueGeneratorsDynamic_iff headers, buildKeyValueGeneratorsDynamic_iff cookies, ?_⟩
  unfold newRequestGeneratorIsDynamic
  simp only [Bool.or_eq_true, createTemplateFuncDynamic_iff,
    buildStringSliceGeneratorDynamic_iff, buildKeyValueGeneratorsDynamic_iff]
  tauto

theorem generateTail_spec (env : GenEnv) (data : Values) (slot : String) (rd : RequestData)
    (rdf : RequestData) (h : (generateTail env data slot rd).result = Except.ok rdf) :
    (generateTail env data slot rd).trace =
      [GenStep.renderParams, GenStep.renderCookies] ++
      (if env.hasScripts then [GenStep.scriptTransform] else []) ++ [GenStep.applyToWire] ∧
    (generateTail env data slot rd).slot = slot := by
  cases hp : env.paramsStep data rd with
  | error e => simp [generateTail, hp] at h
  | ok rd₅ =>
    cases hc : env.cookiesStep data rd₅ with
    | error e => simp [generateTail, hp, hc] at h
    | ok rd₆ =>
      cases hs : env.hasScripts with
      | false => simp [generateTail, hp, hc, hs]
      | true =>
        cases hscr : env.scriptStep rd₆ with
        | error e => simp [generateTail, hp, hc, hs, hscr] at h
        | ok rd₇ => simp [generateTail, hp, hc, hs, hscr]

/-- C5.  Whenever an invocation of the generated request function
succeeds, its steps occur in exactly the order: evaluate values; render
path; render method; clear the form-data slot and render body; render
headers; append the form-data Content-Type exactly when body rendering
populated the slot; render params; render cookies; hand off to the
script chain when scripts are present; apply to the wire request.
Moreover the outcome is independent of the slot contents left over from
the previous invocation (step 4 clears them). -/

theorem generate_step_order (env : GenEnv) (rd₀ : RequestData) (slot₀ : String)
    (rdf : RequestData) (h : (generate env rd₀ slot₀).result = Except.ok rdf) :
    (generate env rd₀ slot₀).trace =
      [GenStep.evalValues, GenStep.renderPath, GenStep.renderMethod, GenStep.clearFormDataSlot,
       GenStep.renderBody, GenStep.renderHeaders] ++
      (if (generate env rd₀ slot₀).slot = "" then [] else [GenStep.appendFormDataContentType]) ++
      [GenStep.renderParams, GenStep.renderCookies] ++
      (if env.hasScripts then [GenStep.scriptTransform] else []) ++
      [GenStep.applyToWire] ∧
    (GenStep.appendFormDataContentType ∈ (generate env rd₀ slot₀).trace ↔
      (generate env rd₀ slot₀).slot ≠ "") ∧
    ∀ s' : String, generate env rd₀ s' = generate env rd₀ slot₀ := by
  cases hv : env.valuesResult with
  | error e => simp [generate, hv] at h
  | ok data =>
    cases hpath : env.pathResult data with
    | error e => simp [generate, hv, hpath] at h
    | ok path =>
      cases hm : env.methodStep data (setPath (resetRequestData rd₀) path) with
      | error e => simp [generate, hv, hpath, hm] at h
      | ok rd₂ =>
        cases hb : env.bodyStep data rd₂ with
        | error e => simp [generate, hv, hpath, hm, hb] at h
        | ok bodyOut =>
          cases hh : env.headersStep data bodyOut.1 with
          | error e => simp [generate, hv, hpath, hm, hb, hh] at h
          | ok rd₄ =>
            by_cases hslot : bodyOut.2 = ""
            · have hres : generate env rd₀ slot₀ =
                  ⟨[GenStep.evalValues, GenStep.renderPath, GenStep.renderMethod,
                    GenStep.clearFormDataSlot, GenStep.renderBody, GenStep.renderHeaders] ++
                    (generateTail env data bodyOut.2 rd₄).trace,
                    (generateTail env data bodyOut.2 rd₄).slot,
                    (generateTail env data bodyOut.2 rd₄).result⟩ := by
                simp [generate, hv, hpath, hm, hb, hh, hslot]
              have htail := generateTail_spec env data bodyOut.2 rd₄ rdf (by
                rw [hres] at h; exact h)
              rw [hslot] at htail
              refine ⟨?_, ?_, ?_⟩
              · rw [hres]
                simp [htail.1, htail.2, hslot]
              · rw [hres]
                cases hhs : env.hasScripts <;> simp [htail.1, htail.2, hslot, hhs]
              · intro s'
                rw [hres]
                simp [generate, hv, hpath, hm, hb, hh, hslot]
            · have hres : generate env rd₀ slot₀ =
                  ⟨[GenStep.evalValues, GenStep.renderPath, GenStep.renderMethod,
                    GenStep.clearFormDataSlot, GenStep.renderBody, GenStep.renderHeaders] ++
                    [GenStep.appendFormDataContentType] ++
                    (generateTail env data bodyOut.2 (appendContentType rd₄ bodyOut.2)).trace,
                    (generateTail env data bodyOut.2 (appendContentType rd₄ bodyOut.2)).slot,
                    (generateTail env data bodyOut.2 (appendContentType rd₄ bodyOut.2)).result⟩ := by
                simp [generate, hv, hpath, hm, hb, hh, hslot]
              have htail := generateTail_spec env data bodyOut.2
                (appendContentType rd₄ bodyOut.2) rdf (by rw [hres] at h; exact h)
              refine ⟨?_, ?_, ?_⟩
              · rw [hres]
                simp [htail.1, htail.2, if_neg hslot]
              · rw [hres]
                cases hhs : env.hasScripts <;> simp [htail.1, htail.2, hslot, hhs]
              · intro s'
                rw [hres]
                simp [generate, hv, hpath, hm, hb, hh, hslot]

/-- Witness for C5 on the concrete environment `sampleGenEnv` (body
populates the slot; scripts present), starting from a stale slot left
over from a previous iteration. -/

theorem generate_step_order_witness :
    (generate sampleGenEnv emptyRequestData "stale").trace =
      [GenStep.evalValues, GenStep.renderPath, GenStep.renderMethod, GenStep.clearFormDataSlot,
       GenStep.renderBody, GenStep.renderHeaders] ++
      (if (generate sampleGenEnv emptyRequestData "stale").slot = "" then []
       else [GenStep.appendFormDataContentType]) ++
      [GenStep.renderParams, GenStep.renderCookies] ++
      (if sampleGenEnv.hasScripts then [GenStep.scriptTransform] else []) ++
      [GenStep.applyToWire] ∧
    (GenStep.appendFormDataContentType ∈ (generate sampleGenEnv emptyRequestData "stale").trace ↔
      (generate sampleGenEnv emptyRequestData "stale").slot ≠ "") ∧
    generate sampleGenEnv emptyRequestData "other" = generate sampleGenEnv emptyRequestData "stale" :=
  have h := generate_step_order sampleGenEnv emptyRequestData "stale"
    { method := "GET", url := "", path := "/p",
      headers := [("Content-Type", ["multipart/form-data; boundary=x"])],
      params := [], cookies := [], body := "b" } rfl
  ⟨h.1, h.2.1, h.2.2 "other"⟩

/-- C6.  A transform invocation returning a non-table value (nil,
boolean, number or string) is an error — as is a Lua runtime error —
and a returned table that omits one of the seven fields leaves that
field of the request data unchanged on readback. -/

theorem lua_transform_nontable_errors_and_omitted_fields_unchanged
    (call : LuaValue → Except String LuaValue) (req : RequestData) :
    (∀ v, call (requestDataToTable req) = Except.ok v → (∀ t, v ≠ LuaValue.table t) →
      luaTransform call req =
        Except.error ("transform function must return a table, got " ++ v.typeName)) ∧
    (∀ e, call (requestDataToTable req) = Except.error e →
      luaTransform call req = Except.error ("lua transform error: " ++ e)) ∧
    (∀ t, call (requestDataToTable req) = Except.ok (LuaValue.table t) →
      ∃ req', luaTransform call req = Except.ok req' ∧
        (rawGetString t "method" = LuaValue.nil → req'.method = req.method) ∧
        (rawGetString t "url" = LuaValue.nil → req'.url = req.url) ∧
        (rawGetString t "path" = LuaValue.nil → req'.path = req.path) ∧
        (rawGetString t "body" = LuaValue.nil → req'.body = req.body) ∧
        (rawGetString t "headers" = LuaValue.nil → req'.headers = req.headers) ∧
        (rawGetString t "params" = LuaValue.nil → req'.params = req.params) ∧
        (rawGetString t "cookies" = LuaValue.nil → req'.cookies = req.cookies)) := by
  refine ⟨?_, ?_, ?_⟩
  · intro v hok hnot
    cases v with
    | table t => exact absurd rfl (hnot t)
    | nil => simp [luaTransform, hok]
    | boolean b => simp [luaTransform, hok]
    | number n => simp [luaTransform, hok]
    | str s => simp [luaTransform, hok]
  · intro e herr
    simp [luaTransform, herr]
  · intro t hok
    refine ⟨tableToRequestData t req, by simp [luaTransform, hok], ?_, ?_, ?_, ?_, ?_, ?_, ?_⟩ <;>
      intro hnil <;> simp [tableToRequestData, hnil, updStr, updMap]

/-- Witness for C6: the number-returning script errors; the script
omitting `method` leaves it unchanged. -/

theorem lua_transform_witness :
    luaTransform luaBadCall emptyRequestData =
      Except.error ("transform function must return a table, got " ++
        (LuaValue.number 3).typeName) ∧
    ∃ req', luaTransform luaOmitCall emptyRequestData = Except.ok req' ∧
      req'.method = emptyRequestData.method := by
  have h1 := (lua_transform_nontable_errors_and_omitted_fields_unchanged luaBadCall
    emptyRequestData).1 (.number 3) rfl (fun t h => LuaValue.noConfusion h)
  have h3 := (lua_transform_nontable_errors_and_omitted_fields_unchanged luaOmitCall
    emptyRequestData).2.2 [(LuaValue.str "path", LuaValue.str "/new")] rfl
  obtain ⟨req', heq, hm, _⟩ := h3
  exact ⟨h1, req', heq, hm rfl⟩

end Sarin
